import Mathlib

/-!
Verification of the commit-history synthesis engine of `commit-bot.js`.

The development shallowly embeds the planning phase (file classification,
bin-packing into day/commit slots), the scanning phase (ignore patterns and
the hard-coded security exclusions) and the execution phase (the per-commit
state machine with integrity checking, the manual skip gate, and the
resumability cursor) of `src/commit-bot.js`.

Conventions of the embedding:
* files are represented by their source-relative paths (the JS code carries
  absolute paths and calls `path.relative` at each use; the embedding applies
  that translation once);
* strings are processed through explicit `List Char` helpers mirroring the
  JS `String.prototype` operations (`includes`, `endsWith`, `startsWith`,
  `toLowerCase`) and `path.basename` / `path.dirname` for `/`-separated
  relative paths;
* SHA-256 digests are abstracted by oracle functions `String → Nat` giving
  the digest of each file at the source and at the copy destination;
  wall-clock readings are an oracle `Nat → Nat` giving the elapsed
  milliseconds at the k-th loop-top check;
* `process.exit(1)` (the `halt` helper of the JS code) is modelled by the
  `StepOut.haltedStep` / halted-flag outcomes: once produced, no further
  state is written;
* persisted JSON documents are modelled by their parsed values; two equal
  values correspond to byte-identical serializations of `JSON.stringify`.
-/

/-- Does `p` occur as a prefix of `cs`? Char-list core of `String.startsWith`. -/
def charsStartsWith : List Char → List Char → Bool
  | [], _ => true
  | _ :: _, [] => false
  | p :: ps, c :: cs => p == c && charsStartsWith ps cs

/-- JS `String.prototype.includes`: does `pat` occur as a contiguous substring? -/
def charsContains (text pat : List Char) : Bool :=
  charsStartsWith pat text ||
    match text with
    | [] => false
    | _ :: rest => charsContains rest pat

/-- JS `String.prototype.endsWith`. -/
def charsEndsWith (text pat : List Char) : Bool :=
  charsStartsWith pat.reverse text.reverse

/-- JS `String.prototype.includes` on `String`. -/
def strContains (text pat : String) : Bool :=
  charsContains text.data pat.data

/-- JS `String.prototype.endsWith` on `String`. -/
def strEndsWith (text pat : String) : Bool :=
  charsEndsWith text.data pat.data

/-- JS `String.prototype.startsWith` on `String`. -/
def strStartsWith (text pat : String) : Bool :=
  charsStartsWith pat.data text.data

/-- JS `String.prototype.toLowerCase`. -/
def strLower (s : String) : String :=
  ⟨s.data.map Char.toLower⟩

/-- Split a char list at every occurrence of `sep` (used for `/` path parts). -/
def splitChar (sep : Char) : List Char → List (List Char)
  | [] => [[]]
  | c :: rest =>
    let r := splitChar sep rest
    if c == sep then [] :: r
    else
      match r with
      | [] => [[c]]
      | h :: t => (c :: h) :: t

/-- Node `path.basename` for a `/`-separated relative path. -/
def baseName (p : String) : String :=
  ⟨((splitChar '/' p.data).getLastD [])⟩

/-- Node `path.dirname` for a `/`-separated relative path: everything before the
last separator, or `"."` when the path has a single component. -/
def dirName (p : String) : String :=
  let parts := splitChar '/' p.data
  if parts.length ≤ 1 then "."
  else ⟨(List.intersperse ['/'] parts.dropLast).flatten⟩

/-- The seven classifier buckets of `phase1Planning` (S1.4). -/
inductive Category where
  | scaffold
  | build
  | skeleton
  | feature
  | test
  | docs
  | asset
  deriving DecidableEq, Repr

/-- Scaffold marker of the classifier chain (`commit-bot.js` lines 286-292):
lowercased basename contains one of the scaffold filenames. -/
def isScaffoldFile (p : String) : Bool :=
  let b := strLower (baseName p)
  strContains b "gitignore" || strContains b "license" ||
    strContains b "readme" || strContains b "editorconfig"

/-- Build marker (lines 293-300): manifest/bundler names in the basename or
`"config"` occurring in the lowercased dirname. -/
def isBuildFile (p : String) : Bool :=
  let b := strLower (baseName p)
  let d := strLower (dirName p)
  strContains b "package.json" || strContains b "tsconfig" ||
    strContains b "webpack" || strContains b "vite" || strContains d "config"

/-- Test marker (lines 301-306): `"test"` in basename or dirname, or `"spec"`
in the basename (the dirname is not consulted for `"spec"`). -/
def isTestFile (p : String) : Bool :=
  let b := strLower (baseName p)
  let d := strLower (dirName p)
  strContains b "test" || strContains d "test" || strContains b "spec"

/-- Docs marker (line 307): `".md"` occurring anywhere in the lowercased
basename (a substring check, not an extension check), or `"doc"` in the
dirname. -/
def isDocsFile (p : String) : Bool :=
  let b := strLower (baseName p)
  let d := strLower (dirName p)
  strContains b ".md" || strContains d "doc"

/-- Asset extensions of the regex `\.(png|jpg|jpeg|gif|svg|ico|css|scss|less)$`. -/
def assetExtensions : List String :=
  [".png", ".jpg", ".jpeg", ".gif", ".svg", ".ico", ".css", ".scss", ".less"]

/-- Asset marker (lines 309-313): `"asset"` in the dirname or an image/style
extension at the end of the lowercased basename. -/
def isAssetFile (p : String) : Bool :=
  let b := strLower (baseName p)
  let d := strLower (dirName p)
  strContains d "asset" || assetExtensions.any (fun e => strEndsWith b e)

/-- Skeleton marker (lines 314-318): `"index"` in the (original-case) relative
path, or `"main"`/`"app"` in the lowercased basename. -/
def isSkeletonFile (p : String) : Bool :=
  let b := strLower (baseName p)
  strContains p "index" || strContains b "main" || strContains b "app"

/-- The file classifier of S1.4 (`commit-bot.js` lines 281-323): a first-match
if/else chain over the marker predicates with `feature` as the catch-all. -/
def classifyFile (p : String) : Category :=
  if isScaffoldFile p then .scaffold
  else if isBuildFile p then .build
  else if isTestFile p then .test
  else if isDocsFile p then .docs
  else if isAssetFile p then .asset
  else if isSkeletonFile p then .skeleton
  else .feature

/-- Marker predicate per category, for stating the first-match-wins contract.
`feature` is the catch-all, so its marker always holds. -/
def markerHolds : Category → String → Bool
  | .scaffold, p => isScaffoldFile p
  | .build, p => isBuildFile p
  | .test, p => isTestFile p
  | .docs, p => isDocsFile p
  | .asset, p => isAssetFile p
  | .skeleton, p => isSkeletonFile p
  | .feature, _ => true

/-- The order in which the classifier chain evaluates its marker predicates. -/
def checkOrder : List Category :=
  [.scaffold, .build, .test, .docs, .asset, .skeleton]

/-- Modelled from the spec: the classifier as claim C6 words it, with the docs
marker read as an `".md"` extension (suffix) test instead of the code's
substring test. Used only for refinement comparison against `classifyFile`. -/
def isDocsSpecFile (p : String) : Bool :=
  let b := strLower (baseName p)
  let d := strLower (dirName p)
  strEndsWith b ".md" || strContains d "doc"

/-- Modelled from the spec: full classifier cascade following claim C6's
wording; identical to `classifyFile` except for the docs marker. -/
def classifySpec (p : String) : Category :=
  if isScaffoldFile p then .scaffold
  else if isBuildFile p then .build
  else if isTestFile p then .test
  else if isDocsSpecFile p then .docs
  else if isAssetFile p then .asset
  else if isSkeletonFile p then .skeleton
  else .feature

/-- Category ordering for the flattened work queue (S1.3, lines 255-263). -/
def categoryOrder : List Category :=
  [.scaffold, .build, .skeleton, .feature, .test, .docs, .asset]

/-- Rank of a category in `categoryOrder`. -/
def orderIndex : Category → Nat
  | .scaffold => 0
  | .build => 1
  | .skeleton => 2
  | .feature => 3
  | .test => 4
  | .docs => 5
  | .asset => 6

/-- Configuration fields of `config` consumed by the planning loop.
`sourceBase` is `path.basename(SOURCE_DIR)`, which the scope computation
falls back to for files at the root of the source tree. `maxFilesPerCommit`
is `MAX_FILES_PER_COMMIT` (`none` when the variable is unset; the JS `||`
fallback also treats an explicit `0` as unset). -/
structure BotConfig where
  totalDays : Nat
  commitsPerDay : Nat
  maxFilesPerCommit : Option Nat
  sourceBase : String
  deriving DecidableEq, Repr

/-- Files of one category, in scan order (the JS code builds the
`categorizedFiles` buckets in a single pass over `allFiles`, which preserves
scan order exactly as this filter does). -/
def filesOfCategory (files : List String) (c : Category) : List String :=
  files.filter (fun g => decide (classifyFile g = c))

/-- The flattened work queue (lines 326-331): categories concatenated in
`categoryOrder`, each file paired with its category. -/
def buildQueue (files : List String) : List (String × Category) :=
  categoryOrder.flatMap (fun c => (filesOfCategory files c).map (fun g => (g, c)))

/-- JS `Math.ceil(a / b)` on naturals. -/
def ceilDiv (a b : Nat) : Nat :=
  (a + b - 1) / b

/-- The per-slot chunk size (lines 333 and 347): `MAX_FILES_PER_COMMIT ||
Math.ceil(queueLength / plannedCommits)`; the `||` makes an unset or zero
`MAX_FILES_PER_COMMIT` fall back to the computed `filesPerCommit`. -/
def effectiveMaxFiles (cfg : BotConfig) (queueLen : Nat) : Nat :=
  let filesPerCommit := ceilDiv queueLen (cfg.totalDays * cfg.commitsPerDay)
  match cfg.maxFilesPerCommit with
  | some m => if m == 0 then filesPerCommit else m
  | none => filesPerCommit

/-- One planned commit record (lines 398-406); `finishedAt`-style metadata and
the `why` string are display only but kept for fidelity. -/
structure PlannedCommit where
  id : String
  type : String
  scope : String
  message : String
  files : List String
  why : String
  category : Category
  deriving DecidableEq, Repr

/-- One day record of the plan (lines 409-417). -/
structure PlanDay where
  day : Nat
  summary : String
  commits : List PlannedCommit
  deriving DecidableEq, Repr

/-- The Plan artifact (`.commit-plan.json`, lines 429-489); display metadata
(settings block, timestamps) is not modelled. -/
structure Plan where
  days : List PlanDay
  approved : Bool
  deriving DecidableEq, Repr

/-- Commit type per primary category (the `switch` at lines 364-396). -/
def commitTypeFor : Category → String
  | .scaffold => "chore"
  | .build => "build"
  | .skeleton => "feat"
  | .feature => "feat"
  | .test => "test"
  | .docs => "docs"
  | .asset => "chore"

/-- Commit message body per primary category and scope (same `switch`). -/
def commitBodyFor (c : Category) (scope : String) : String :=
  match c with
  | .scaffold => "add project scaffolding and configuration"
  | .build => "setup build configuration and tooling"
  | .skeleton => "add core application structure"
  | .feature => "implement " ++ scope ++ " functionality"
  | .test => "add tests for " ++ scope
  | .docs => "add documentation for " ++ scope
  | .asset => "add assets and styling"

/-- Scope of a commit (line 361): `path.basename(path.dirname(file))` of the
first file, which for a root-level relative path is the basename of
`SOURCE_DIR`; an empty result falls back to `"repo"`. -/
def scopeOf (cfg : BotConfig) (f : String) : String :=
  let d := dirName f
  let s := if d == "." then cfg.sourceBase else baseName d
  if s == "" then "repo" else s

/-- Materialize one commit record from a chunk (lines 358-406). -/
def mkCommit (cfg : BotConfig) (day ci : Nat) (chunk : List (String × Category)) :
    PlannedCommit :=
  let primary := (chunk.headD ("", .feature)).2
  let scope := scopeOf cfg (chunk.headD ("", .feature)).1
  let ty := commitTypeFor primary
  { id := "d" ++ toString day ++ "-c" ++ toString ci
    type := ty
    scope := scope
    message := ty ++ "(" ++ scope ++ "): " ++ commitBodyFor primary scope
    files := chunk.map (fun cf => cf.1)
    why := "implementation for organized development"
    category := primary }

/-- The inner commit loop of a day (lines 339-407): up to `fuel` remaining
slots numbered from `ci`, each consuming at most `maxFiles` queue entries;
breaks when the queue is exhausted or a chunk comes out empty. Returns the
day's commits and the remaining queue. -/
def commitsForDay (cfg : BotConfig) (day maxFiles : Nat) :
    Nat → Nat → List (String × Category) → List PlannedCommit × List (String × Category)
  | 0, _, q => ([], q)
  | fuel + 1, ci, q =>
    if q.isEmpty then ([], q)
    else
      let chunk := q.take maxFiles
      if chunk.isEmpty then ([], q)
      else
        let out := commitsForDay cfg day maxFiles fuel (ci + 1) (q.drop maxFiles)
        (mkCommit cfg day ci chunk :: out.1, out.2)

/-- The outer day loop (lines 336-418): `fuel` remaining days numbered from
`day`; a day whose commit list comes out empty is omitted from the plan. -/
def daysLoop (cfg : BotConfig) (maxFiles commitsPerDay : Nat) :
    Nat → Nat → List (String × Category) → List PlanDay
  | 0, _, _ => []
  | fuel + 1, day, q =>
    let out := commitsForDay cfg day maxFiles commitsPerDay 1 q
    let rest := daysLoop cfg maxFiles commitsPerDay fuel (day + 1) out.2
    if out.1.isEmpty then rest
    else { day := day, summary := "Day " ++ toString day, commits := out.1 } :: rest

/-- Phase 1 planning (S1.4/S1.6): classify, build the queue, bin-pack into
`totalDays × commitsPerDay` slots, and emit the unapproved Plan. -/
def phase1Plan (cfg : BotConfig) (allFiles : List String) : Plan :=
  let fileQueue := buildQueue allFiles
  let maxFiles := effectiveMaxFiles cfg fileQueue.length
  { days := daysLoop cfg maxFiles cfg.commitsPerDay cfg.totalDays 1 fileQueue
    approved := false }

/-- All commits of a plan in plan order (day outer, index inner). -/
def flattenCommits (p : Plan) : List PlannedCommit :=
  p.days.flatMap (fun d => d.commits)

/-- All files of a plan in plan order. -/
def flattenFiles (p : Plan) : List String :=
  (flattenCommits p).flatMap (fun c => c.files)

/-- The hard-coded security exclusion table of `shouldIgnoreFile`
(lines 92-110). -/
def securityPatterns : List String :=
  [".env", "*.pem", "*.key", "id_*", "*.p12", "*.keystore", "*.sqlite",
   "*.credentials", "*.token", "*.bak", "node_modules", "dist", "build",
   ".next", ".cache", ".turbo", ".parcel-cache"]

/-- Security match (lines 112-118): a `*.`-pattern matches when the relative
path ends with the pattern minus the `*`; any other pattern matches as a
substring of the relative path. -/
def matchesSecurity (rel : String) : Bool :=
  securityPatterns.any (fun pat =>
    if strStartsWith pat "*." then strEndsWith rel (String.mk pat.data.tail)
    else strContains rel pat)

/-- `shouldIgnoreFile` (lines 81-121) on the source-relative path: a user
ignore pattern matches by substring or prefix, and the security table is
always consulted afterwards. -/
def shouldIgnoreFile (patterns : List String) (rel : String) : Bool :=
  patterns.any (fun pat => strContains rel pat || strStartsWith rel pat) ||
    matchesSecurity rel

/-- A node of the source file tree, as `scanDirectory` observes it through
`fs.readdirSync` / `fs.statSync`. -/
inductive FsEntry where
  | fileE (name : String)
  | dirE (name : String) (children : List FsEntry)
  deriving Repr

/-- Relative-path join used while scanning. -/
def joinRel (pref name : String) : String :=
  if pref == "" then name else pref ++ "/" ++ name

/-- The recursive scan of `scanDirectory` (lines 123-147): ignored directories
are pruned whole, ignored files are dropped, surviving files are emitted
depth-first in directory order as source-relative paths. -/
def scanEntries (patterns : List String) (pref : String) : List FsEntry → List String
  | [] => []
  | .fileE n :: rest =>
    let r := joinRel pref n
    (if shouldIgnoreFile patterns r then [] else [r]) ++
      scanEntries patterns pref rest
  | .dirE n children :: rest =>
    let r := joinRel pref n
    (if shouldIgnoreFile patterns r then [] else scanEntries patterns r children) ++
      scanEntries patterns pref rest

/-- `scanDirectory(SOURCE_DIR, SOURCE_DIR, patterns)`. -/
def scanDirectory (patterns : List String) (root : List FsEntry) : List String :=
  scanEntries patterns "" root

/-- The resumability cursor of the ExecutionState document. -/
structure Cursor where
  day : Nat
  index : Nat
  deriving DecidableEq, Repr

/-- One entry of the append-only `completed` audit trail (lines 755-767);
`finishedAt` and `commitSha` come from the clock and git and are not
modelled. -/
structure CompletedCommit where
  id : String
  day : Nat
  fileChecksums : List (String × Nat)
  deriving DecidableEq, Repr

/-- The ExecutionState document (`.commit-state.json`). Checksum maps are
modelled as association lists with JS-object update semantics
(`insertChecksum`). -/
structure ExecState where
  completed : List CompletedCommit
  next : Cursor
  sourceChecksums : List (String × Nat)
  deriving DecidableEq, Repr

/-- The fresh ExecutionState written by planning (lines 494-499) and by the
execution phase when no state file exists (lines 614-621). -/
def freshExecState : ExecState :=
  { completed := [], next := { day := 1, index := 1 }, sourceChecksums := [] }

/-- The artifact writes of S1.6 (lines 491-502): the Plan document is written
from the planning result, and the ExecutionState document is overwritten with
`freshExecState` unconditionally — the previously persisted state (the
`priorState` argument) is not read. -/
def phase1Run (cfg : BotConfig) (allFiles : List String) (priorState : ExecState) :
    Plan × ExecState :=
  (phase1Plan cfg allFiles, freshExecState)

/-- JS object assignment `obj[key] = v` on an association list: replace the
existing binding or append a new one. -/
def insertChecksum (m : List (String × Nat)) (k : String) (v : Nat) :
    List (String × Nat) :=
  if m.any (fun kv => kv.1 == k) then
    m.map (fun kv => if kv.1 == k then (k, v) else kv)
  else m ++ [(k, v)]

/-- JS object read `obj[key]` on an association list (0 for a missing key;
the execution loop only reads keys it has just written). -/
def lookupChecksum (m : List (String × Nat)) (k : String) : Nat :=
  (((m.find? (fun kv => kv.1 == k)).map (fun kv => kv.2)).getD 0)

/-- Environment oracles of one `phase3Execution` invocation: per-file digests
at the source and at the copy destination (S3.C3 computes both after the
copy), elapsed wall-clock per loop-top check, the time budget
`DAILY_RUN_HOURS` in ms, the per-day quota `COMMITS_PER_DAY`, the
`COMMIT_MODE`, and the operator's per-commit answer at the manual gate. -/
structure ExecEnv where
  srcHash : String → Nat
  dstHash : String → Nat
  elapsed : Nat → Nat
  timeLimit : Nat
  maxCommitsToday : Nat
  commitMode : String
  skipChoice : String → Bool

/-- Volatile state of one execution invocation: the in-memory `stateData`,
the persisted `.commit-state.json` (`disk`), the git commits created so far
(by plan commit id), the `commitsProcessed` counter, and the number of
loop-top clock reads consumed (`iter`). -/
structure LoopState where
  mem : ExecState
  disk : ExecState
  gitLog : List String
  commitsProcessed : Nat
  iter : Nat
  deriving DecidableEq, Repr

/-- Outcome of processing one matched commit: a fatal integrity halt
(`process.exit(1)`), a created commit, or an operator skip. -/
inductive StepOut where
  | haltedStep (ls : LoopState) (reason : String)
  | committedStep (ls : LoopState)
  | skippedStep (ls : LoopState)
  deriving DecidableEq, Repr

/-- The integrity sweep of S3.C3 (lines 694-706): walk the commit's files in
order, halting at the first digest mismatch; matched files have their source
digest recorded into the in-memory checksum map. Returns the updated map and
the first mismatching file, if any. -/
def verifyFiles (src dst : String → Nat) :
    List String → List (String × Nat) → List (String × Nat) × Option String
  | [], acc => (acc, none)
  | f :: rest, acc =>
    if src f == dst f then verifyFiles src dst rest (insertChecksum acc f (src f))
    else (acc, some f)

/-- Processing of one matched commit (lines 674-781): copy (modelled by the
`dstHash` oracle), integrity sweep, stage, optional manual gate, git commit,
append the CompletedCommit, advance the cursor with day rollover, persist.
On an integrity halt nothing is persisted and no commit is created; on a skip
the files are unstaged and only `next.index` is incremented (no rollover)
before persisting. -/
def processCommit (env : ExecEnv) (dayLen : Nat) (c : PlannedCommit)
    (ls : LoopState) : StepOut :=
  let ver := verifyFiles env.srcHash env.dstHash c.files ls.mem.sourceChecksums
  match ver.2 with
  | some f =>
    .haltedStep { ls with mem := { ls.mem with sourceChecksums := ver.1 } }
      ("Integrity check failed for " ++ f)
  | none =>
    let mem1 := { ls.mem with sourceChecksums := ver.1 }
    if env.commitMode == "manual" && env.skipChoice c.id then
      let mem2 := { mem1 with
        next := { day := mem1.next.day, index := mem1.next.index + 1 } }
      .skippedStep { ls with mem := mem2, disk := mem2 }
    else
      let entry : CompletedCommit :=
        { id := c.id
          day := mem1.next.day
          fileChecksums := c.files.map (fun f => (f, lookupChecksum ver.1 f)) }
      let mem2 := { mem1 with completed := mem1.completed ++ [entry] }
      let nx : Cursor := { day := mem2.next.day, index := mem2.next.index + 1 }
      let nx := if dayLen < nx.index then { day := nx.day + 1, index := 1 } else nx
      let mem3 := { mem2 with next := nx }
      .committedStep { ls with
        mem := mem3
        disk := mem3
        gitLog := ls.gitLog ++ [c.id]
        commitsProcessed := ls.commitsProcessed + 1 }

/-- The commit id the cursor expects next (line 670). -/
def expectedId (ls : LoopState) : String :=
  "d" ++ toString ls.mem.next.day ++ "-c" ++ toString ls.mem.next.index

/-- The main loop of `phase3Execution` over the current day's commits
(lines 659-782): each iteration first reads the clock and checks the time
budget, then the per-day commit quota, then whether this commit is the one
the cursor expects; budget exhaustion breaks out cleanly, an id mismatch
skips the iteration, and an integrity halt aborts the invocation (the
returned flag is `true` exactly when the run halted). -/
def execLoop (env : ExecEnv) (dayLen : Nat) :
    List PlannedCommit → LoopState → LoopState × Bool
  | [], ls => (ls, false)
  | c :: rest, ls =>
    let t := env.elapsed ls.iter
    let ls1 := { ls with iter := ls.iter + 1 }
    if env.timeLimit < t then (ls1, false)
    else if env.maxCommitsToday ≤ ls1.commitsProcessed then (ls1, false)
    else if c.id == expectedId ls1 then
      match processCommit env dayLen c ls1 with
      | .haltedStep ls' _ => (ls', true)
      | .committedStep ls' => execLoop env dayLen rest ls'
      | .skippedStep ls' => execLoop env dayLen rest ls'
    else execLoop env dayLen rest ls1

/-- Initial loop state of one invocation: in-memory and persisted state agree
with the loaded ExecutionState; no commits created, no clock reads. -/
def initLoopState (st : ExecState) : LoopState :=
  { mem := st, disk := st, gitLog := [], commitsProcessed := 0, iter := 0 }

/-- One invocation of the execution loop after the plan and state are loaded
(lines 649-782): find the day record the cursor points at (`days.find`) and
run the loop over exactly that day's commits; with no matching day the
invocation does nothing (`"No more work to do"`). -/
def phase3Run (env : ExecEnv) (plan : Plan) (st : ExecState) : LoopState × Bool :=
  match plan.days.find? (fun d => d.day == st.next.day) with
  | none => (initLoopState st, false)
  | some currentDay =>
    execLoop env currentDay.commits.length currentDay.commits (initLoopState st)

/-- Fixture: a one-file feature commit planned as `d1-c1`. -/
def commitW : PlannedCommit :=
  { id := "d1-c1", type := "feat", scope := "proj",
    message := "feat(proj): implement proj functionality",
    files := ["alpha.js"], why := "implementation for organized development",
    category := Category.feature }

/-- Fixture: an execution environment with intact copies, a generous time
budget, and automatic commit confirmation. -/
def envAuto : ExecEnv :=
  { srcHash := fun _ => 7, dstHash := fun _ => 7, elapsed := fun _ => 0,
    timeLimit := 10800000, maxCommitsToday := 3, commitMode := "auto",
    skipChoice := fun _ => false }

/-- Fixture: manual confirmation where the operator answers `skip`. -/
def envSkip : ExecEnv :=
  { envAuto with commitMode := "manual", skipChoice := fun _ => true }

/-- Fixture: a corrupted copy (destination digest differs from the source). -/
def envBad : ExecEnv :=
  { envAuto with srcHash := fun _ => 7, dstHash := fun _ => 8 }

/-- Fixture: an exhausted wall clock (elapsed beyond the time budget). -/
def envTimedOut : ExecEnv :=
  { envAuto with elapsed := fun _ => 10800001 }

/-- Fixture: an approved one-day, one-commit plan. -/
def planOneDay : Plan :=
  { days := [{ day := 1, summary := "Day 1", commits := [commitW] }],
    approved := true }

/-- Fixture: the single day record of `planOneDay`. -/
def dayOne : PlanDay :=
  { day := 1, summary := "Day 1", commits := [commitW] }

/-- Fixture: the execution state after `commitW` was committed from a fresh
state: the entry is appended and the cursor rolled over to day 2. -/
def lsAfterCommit : LoopState :=
  let st : ExecState :=
    { completed := [{ id := "d1-c1", day := 1, fileChecksums := [("alpha.js", 7)] }]
      next := { day := 2, index := 1 }
      sourceChecksums := [("alpha.js", 7)] }
  { mem := st, disk := st, gitLog := ["d1-c1"], commitsProcessed := 1, iter := 0 }

/-- Fixture: the execution state after `commitW` was skipped from a fresh
state: nothing appended, the cursor at `(1, 2)` without rollover. -/
def lsAfterSkip : LoopState :=
  let st : ExecState :=
    { completed := []
      next := { day := 1, index := 2 }
      sourceChecksums := [("alpha.js", 7)] }
  { mem := st, disk := st, gitLog := [], commitsProcessed := 0, iter := 0 }

/-- Fixture: the scenario configuration of claim C4
(`totalDays=2, commitsPerDay=2, maxFilesPerCommit=2`). -/
def cfgSeven : BotConfig :=
  { totalDays := 2, commitsPerDay := 2, maxFilesPerCommit := some 2,
    sourceBase := "proj" }

/-- Fixture: the seven classified files of claim C4's scenario — two scaffold
files, one build file, four feature files, in scan order. -/
def filesSeven : List String :=
  [".gitignore", "LICENSE", "tsconfig.json", "alpha.js", "beta.js",
   "gamma.js", "delta.js"]

/-- Fixture: a configuration whose slots hold fewer files than the queue
(`1 × 1` slots of at most one file). -/
def cfgDrop : BotConfig :=
  { totalDays := 1, commitsPerDay := 1, maxFilesPerCommit := some 1,
    sourceBase := "proj" }

/-- Fixture: a configuration without `MAX_FILES_PER_COMMIT`, so the chunk
size is `ceil(queue / (2 × 2))`. -/
def cfgFit : BotConfig :=
  { totalDays := 2, commitsPerDay := 2, maxFilesPerCommit := none,
    sourceBase := "proj" }

/-- Fixture: three plain feature files. -/
def filesFit : List String :=
  ["alpha.js", "beta.js", "gamma.js"]

/-- Fixture: a previously persisted ExecutionState with recorded progress
(one completed commit, cursor advanced to day 2). -/
def priorProgress : ExecState :=
  { completed := [{ id := "d1-c1", day := 1, fileChecksums := [("alpha.js", 7)] }]
    next := { day := 2, index := 1 }
    sourceChecksums := [("alpha.js", 7)] }

/-- Fixture: a source tree holding one plain file next to files and
directories that the built-in security table must exclude. -/
def treeW : List FsEntry :=
  [.fileE "alpha.js", .fileE ".env", .fileE "server.key",
   .dirE "node_modules" [.fileE "left-pad.js"]]

/-- If some file of the sweep has mismatching digests, the sweep reports a
mismatch (S3.C3 halts). -/
theorem verifyFiles_finds_mismatch (src dst : String → Nat) :
    ∀ (files : List String) (acc : List (String × Nat)) (f : String),
      f ∈ files → src f ≠ dst f →
      ∃ g, (verifyFiles src dst files acc).2 = some g := by
  intro files
  induction files with
  | nil => intro acc f hf _; exact absurd hf (List.not_mem_nil f)
  | cons a rest ih =>
    intro acc f hf hne
    by_cases h : (src a == dst a) = true
    · rcases List.mem_cons.mp hf with rfl | hf'
      · exact absurd (eq_of_beq h) hne
      · simpa [verifyFiles, h] using ih _ f hf' hne
    · exact ⟨a, by simp [verifyFiles, h]⟩

/-- Claim C3 (confirmed): if any copied file's digest differs from its
source digest, processing the commit halts (exit 1, modelled by
`StepOut.haltedStep`): the persisted ExecutionState document is exactly what
it was before the attempt, no git commit is created, and no completed entry
is appended even in memory. -/
theorem claim3_integrity_halt (env : ExecEnv) (dayLen : Nat) (c : PlannedCommit)
    (ls : LoopState) (f : String) (hf : f ∈ c.files)
    (hne : env.srcHash f ≠ env.dstHash f) :
    ∃ ls' r, processCommit env dayLen c ls = .haltedStep ls' r ∧
      ls'.disk = ls.disk ∧ ls'.gitLog = ls.gitLog ∧
      ls'.mem.completed = ls.mem.completed := by
  obtain ⟨g, hg⟩ :=
    verifyFiles_finds_mismatch env.srcHash env.dstHash c.files
      ls.mem.sourceChecksums f hf hne
  refine ⟨{ ls with mem := { ls.mem with sourceChecksums :=
      (verifyFiles env.srcHash env.dstHash c.files ls.mem.sourceChecksums).1 } },
    "Integrity check failed for " ++ g, ?_, rfl, rfl, rfl⟩
  unfold processCommit
  simp only [hg]

/-- Witness for claim C3 at a concrete corrupted copy. -/
theorem claim3_integrity_halt_witness :
    (("alpha.js" : String) ∈ commitW.files ∧
      envBad.srcHash "alpha.js" ≠ envBad.dstHash "alpha.js") ∧
    ∃ ls' r,
      processCommit envBad 1 commitW (initLoopState freshExecState) =
        .haltedStep ls' r ∧
      ls'.disk = (initLoopState freshExecState).disk ∧
      ls'.gitLog = (initLoopState freshExecState).gitLog ∧
      ls'.mem.completed = (initLoopState freshExecState).mem.completed :=
  ⟨⟨by decide, by decide⟩,
    claim3_integrity_halt envBad 1 commitW (initLoopState freshExecState)
      "alpha.js" (by decide) (by decide)⟩

/-- Claim C2 (counterexample): skipping the only commit of day 1 at the
manual gate persists the cursor `(1, 2)` — `index` now exceeds the day's
commit count, yet no rollover to `(2, 1)` happens, contradicting the claim
that a skipped commit advances the cursor exactly like a completed one. -/
theorem claim2_counterexample :
    (phase3Run envSkip planOneDay freshExecState).1.disk.next =
      { day := 1, index := 2 } ∧
    ({ day := 1, index := 2 } : Cursor) ≠ { day := 2, index := 1 } := by
  decide

/-- Claim C2 (amended): after a created commit the persisted cursor advances
to `(day, index+1)` and rolls over to `(day+1, 1)` when `index+1` exceeds the
day's commit count; after an operator skip the cursor advances to
`(day, index+1)` unconditionally, with no day rollover. -/
theorem claim2_cursor_advance (env : ExecEnv) (dayLen : Nat) (c : PlannedCommit)
    (ls : LoopState) :
    (∀ ls', processCommit env dayLen c ls = .committedStep ls' →
      ls'.disk.next =
        (if dayLen < ls.mem.next.index + 1 then
          ({ day := ls.mem.next.day + 1, index := 1 } : Cursor)
        else { day := ls.mem.next.day, index := ls.mem.next.index + 1 }) ∧
      ls'.mem.next = ls'.disk.next) ∧
    (∀ ls', processCommit env dayLen c ls = .skippedStep ls' →
      ls'.disk.next =
        ({ day := ls.mem.next.day, index := ls.mem.next.index + 1 } : Cursor) ∧
      ls'.mem.next = ls'.disk.next) := by
  constructor
  · intro ls' h
    unfold processCommit at h
    cases hv : (verifyFiles env.srcHash env.dstHash c.files ls.mem.sourceChecksums).2 with
    | some g => simp only [hv] at h; exact StepOut.noConfusion h
    | none =>
      simp only [hv] at h
      by_cases hm : (env.commitMode == "manual" && env.skipChoice c.id) = true
      · simp only [hm, if_true] at h
        exact StepOut.noConfusion h
      · simp only [hm, if_false, Bool.false_eq_true] at h
        rw [StepOut.committedStep.injEq] at h
        subst h
        exact ⟨rfl, rfl⟩
  · intro ls' h
    unfold processCommit at h
    cases hv : (verifyFiles env.srcHash env.dstHash c.files ls.mem.sourceChecksums).2 with
    | some g => simp only [hv] at h; exact StepOut.noConfusion h
    | none =>
      simp only [hv] at h
      by_cases hm : (env.commitMode == "manual" && env.skipChoice c.id) = true
      · simp only [hm, if_true] at h
        rw [StepOut.skippedStep.injEq] at h
        subst h
        exact ⟨rfl, rfl⟩
      · simp only [hm, if_false, Bool.false_eq_true] at h
        exact StepOut.noConfusion h

/-- Witness for claim C2's amended statement: a concrete committed step rolls
the cursor over to `(2, 1)`, and a concrete skipped step leaves it at
`(1, 2)`. -/
theorem claim2_cursor_advance_witness :
    (processCommit envAuto 1 commitW (initLoopState freshExecState) =
        .committedStep lsAfterCommit ∧
      lsAfterCommit.disk.next = { day := 2, index := 1 }) ∧
    (processCommit envSkip 1 commitW (initLoopState freshExecState) =
        .skippedStep lsAfterSkip ∧
      lsAfterSkip.disk.next = { day := 1, index := 2 }) := by
  refine ⟨⟨by decide, ?_⟩, ⟨by decide, ?_⟩⟩
  · have h :=
      ((claim2_cursor_advance envAuto 1 commitW (initLoopState freshExecState)).1
        lsAfterCommit (by decide)).1
    exact h.trans (by decide)
  · exact ((claim2_cursor_advance envSkip 1 commitW (initLoopState freshExecState)).2
      lsAfterSkip (by decide)).1

/-- Claim C4 (counterexample): in the `totalDays=2, commitsPerDay=2,
maxFilesPerCommit=2` scenario with 2 scaffold + 1 build + 4 feature files,
the planner packs the queue greedily into chunks of two, so slot 2 holds the
build file together with the first feature file — not the build file alone,
and the feature files are not split two-and-two over slots 3-4. -/
theorem claim4_counterexample :
    (flattenCommits (phase1Plan cfgSeven filesSeven)).map
        (fun c => c.files) =
      [[".gitignore", "LICENSE"], ["tsconfig.json", "alpha.js"],
       ["beta.js", "gamma.js"], ["delta.js"]] ∧
    (flattenCommits (phase1Plan cfgSeven filesSeven)).map
        (fun c => c.files) ≠
      [[".gitignore", "LICENSE"], ["tsconfig.json"],
       ["alpha.js", "beta.js"], ["gamma.js", "delta.js"]] := by
  decide

/-- Claim C4 (amended): the scenario yields exactly 4 commit slots; slot 1 is
the two scaffold files with type `chore`, slot 2 is the build file plus the
first feature file with type `build`, slot 3 is the second and third feature
files and slot 4 the last feature file alone, both with type `feat`. -/
theorem claim4_seven_files :
    (flattenCommits (phase1Plan cfgSeven filesSeven)).map
        (fun c => (c.id, c.type, c.files)) =
      [("d1-c1", "chore", [".gitignore", "LICENSE"]),
       ("d1-c2", "build", ["tsconfig.json", "alpha.js"]),
       ("d2-c1", "feat", ["beta.js", "gamma.js"]),
       ("d2-c2", "feat", ["delta.js"])] := by
  decide

/-- Claim C6 (counterexample): the code's docs marker is a substring test
`basename.includes(".md")`, not an `".md"` extension test: `notes.mdx` is
classified `docs` by the code but `feature` by the claim's cascade (its
basename does not end in `".md"` and no other marker applies). -/
theorem claim6_counterexample :
    classifyFile "notes.mdx" = Category.docs ∧
    classifySpec "notes.mdx" = Category.feature ∧
    Category.docs ≠ Category.feature := by
  decide

/-- Claim C6 (amended): the classifier is total and deterministic — every
file resolves to the first category of
`scaffold, build, test, docs, asset, skeleton` whose marker matches, with
`feature` as the catch-all — where the docs marker is "lowercased basename
contains `\".md\"` as a substring, or dirname contains `\"doc\"`". -/
theorem claim6_first_match (p : String) :
    classifyFile p = (checkOrder.find? (fun c => markerHolds c p)).getD .feature := by
  unfold classifyFile checkOrder
  cases h1 : isScaffoldFile p <;> cases h2 : isBuildFile p <;>
    cases h3 : isTestFile p <;> cases h4 : isDocsFile p <;>
    cases h5 : isAssetFile p <;> cases h6 : isSkeletonFile p <;>
    simp [List.find?, markerHolds, h1, h2, h3, h4, h5, h6]

/-- Claim C7 (counterexample): planning overwrites a previously persisted
ExecutionState that records progress (a completed commit and an advanced
cursor) with a fresh document — `completed` is reset to empty and `next` to
`(1, 1)`, contradicting the claim that planning leaves progress unchanged. -/
theorem claim7_counterexample :
    (phase1Run cfgFit filesFit priorProgress).2.completed = [] ∧
    (phase1Run cfgFit filesFit priorProgress).2.next = { day := 1, index := 1 } ∧
    (phase1Run cfgFit filesFit priorProgress).2 ≠ priorProgress := by
  decide

/-- Claim C7 (amended): the planning phase writes the Plan artifact computed
from the scan, and unconditionally overwrites the ExecutionState document
with a fresh one (`completed = []`, `next = (1,1)`, empty checksum map),
never reading the prior state; recorded progress survives a run only because
`main` enters planning solely when no plan file exists. -/
theorem claim7_planning_resets_state (cfg : BotConfig) (files : List String)
    (prior : ExecState) :
    (phase1Run cfg files prior).1 = phase1Plan cfg files ∧
    (phase1Run cfg files prior).2.completed = [] ∧
    (phase1Run cfg files prior).2.next = { day := 1, index := 1 } ∧
    (phase1Run cfg files prior).2.sourceChecksums = [] :=
  ⟨rfl, rfl, rfl, rfl⟩

/-- With a chunk size of zero the commit loop makes no progress: the break on
an empty chunk fires immediately (this happens only when the queue is empty
or `totalDays * commitsPerDay` is zero, where the JS loops are empty too). -/
theorem commitsForDay_chunk_zero (cfg : BotConfig) (day : Nat) (fuel ci : Nat)
    (q : List (String × Category)) :
    commitsForDay cfg day 0 fuel ci q = ([], q) := by
  cases fuel with
  | zero => rfl
  | succ n =>
    unfold commitsForDay
    cases q with
    | nil => simp
    | cons p q' => simp

/-- With a chunk size of zero the day loop plans nothing. -/
theorem daysLoop_chunk_zero (cfg : BotConfig) (commitsPerDay : Nat) :
    ∀ (fuel day : Nat) (q : List (String × Category)),
      daysLoop cfg 0 commitsPerDay fuel day q = [] := by
  intro fuel
  induction fuel with
  | zero => intro day q; rfl
  | succ n ih =>
    intro day q
    unfold daysLoop
    rw [commitsForDay_chunk_zero]
    simpa using ih (day + 1) q

/-- One day's commit loop consumes exactly the first
`slots × maxFiles` queue entries (fewer when the queue runs out): its commits
flatten to that prefix of the queue and it returns the corresponding drop. -/
theorem commitsForDay_take (cfg : BotConfig) (day maxFiles : Nat)
    (hmf : 1 ≤ maxFiles) :
    ∀ (fuel ci : Nat) (q : List (String × Category)),
      ((commitsForDay cfg day maxFiles fuel ci q).1.flatMap
          (fun c => c.files) =
        (q.take (fuel * maxFiles)).map (fun p => p.1)) ∧
      (commitsForDay cfg day maxFiles fuel ci q).2 = q.drop (fuel * maxFiles) := by
  intro fuel
  induction fuel with
  | zero => intro ci q; simp [commitsForDay]
  | succ n ih =>
    intro ci q
    cases q with
    | nil => simp [commitsForDay]
    | cons p q' =>
      obtain ⟨m, rfl⟩ : ∃ m, maxFiles = m + 1 :=
        ⟨maxFiles - 1, (Nat.succ_pred_eq_of_pos hmf).symm⟩
      unfold commitsForDay
      have hchunk : ((p :: q').take (m + 1)).isEmpty = false := by
        simp [List.take_succ_cons]
      simp only [List.isEmpty_cons, hchunk, Bool.false_eq_true, if_false,
        ite_false]
      constructor
      · simp only [List.flatMap_cons, mkCommit]
        rw [(ih (ci + 1) ((p :: q').drop (m + 1))).1]
        rw [← List.map_append, ← List.take_add]
        rw [show m + 1 + n * (m + 1) = (n + 1) * (m + 1) by ring]
      · rw [(ih (ci + 1) ((p :: q').drop (m + 1))).2]
        rw [List.drop_drop]
        rw [show m + 1 + n * (m + 1) = (n + 1) * (m + 1) by ring]

/-- The whole day loop consumes exactly the first
`days × commitsPerDay × maxFiles` queue entries: the planned files, flattened
in plan order, are that prefix of the queue. -/
theorem daysLoop_take (cfg : BotConfig) (maxFiles commitsPerDay : Nat)
    (hmf : 1 ≤ maxFiles) :
    ∀ (fuel day : Nat) (q : List (String × Category)),
      ((daysLoop cfg maxFiles commitsPerDay fuel day q).flatMap
          (fun d => d.commits.flatMap (fun c => c.files))) =
        (q.take (fuel * (commitsPerDay * maxFiles))).map (fun p => p.1) := by
  intro fuel
  induction fuel with
  | zero => intro day q; simp [daysLoop, Nat.zero_mul]
  | succ n ih =>
    intro day q
    unfold daysLoop
    have hc := commitsForDay_take cfg day maxFiles hmf commitsPerDay 1 q
    have hsplit :
        ((if (commitsForDay cfg day maxFiles commitsPerDay 1 q).1.isEmpty then
            daysLoop cfg maxFiles commitsPerDay n (day + 1)
              (commitsForDay cfg day maxFiles commitsPerDay 1 q).2
          else
            { day := day, summary := "Day " ++ toString day,
              commits := (commitsForDay cfg day maxFiles commitsPerDay 1 q).1 } ::
              daysLoop cfg maxFiles commitsPerDay n (day + 1)
                (commitsForDay cfg day maxFiles commitsPerDay 1 q).2).flatMap
          (fun d => d.commits.flatMap (fun c => c.files))) =
        (commitsForDay cfg day maxFiles commitsPerDay 1 q).1.flatMap
            (fun c => c.files) ++
          ((daysLoop cfg maxFiles commitsPerDay n (day + 1)
              (commitsForDay cfg day maxFiles commitsPerDay 1 q).2).flatMap
            (fun d => d.commits.flatMap (fun c => c.files))) := by
      by_cases he : (commitsForDay cfg day maxFiles commitsPerDay 1 q).1.isEmpty = true
      · rw [if_pos he, List.isEmpty_iff.mp he]
        simp
      · rw [if_neg he, List.flatMap_cons]
    rw [hsplit, hc.1, ih (day + 1) _, hc.2]
    rw [show (n + 1) * (commitsPerDay * maxFiles) =
      commitsPerDay * maxFiles + n * (commitsPerDay * maxFiles) by ring]
    rw [List.take_add, List.map_append]

/-- The files of a produced plan, flattened in plan order, are exactly the
first `totalDays × commitsPerDay × maxFiles` entries of the work queue. -/
theorem phase1_flatten_take (cfg : BotConfig) (files : List String)
    (hmf : 1 ≤ effectiveMaxFiles cfg (buildQueue files).length) :
    flattenFiles (phase1Plan cfg files) =
      ((buildQueue files).take
        (cfg.totalDays * (cfg.commitsPerDay *
          effectiveMaxFiles cfg (buildQueue files).length))).map
        (fun p => p.1) := by
  simp only [flattenFiles, flattenCommits, phase1Plan]
  rw [List.flatMap_assoc]
  exact daysLoop_take cfg _ cfg.commitsPerDay hmf cfg.totalDays 1 _

/-- Degenerate chunk size: the produced plan is empty. -/
theorem phase1_flatten_zero (cfg : BotConfig) (files : List String)
    (hmf : effectiveMaxFiles cfg (buildQueue files).length = 0) :
    flattenFiles (phase1Plan cfg files) = [] := by
  simp only [flattenFiles, flattenCommits, phase1Plan]
  rw [hmf, daysLoop_chunk_zero]
  rfl

/-- Count of a file in one classifier bucket: the full count when the file
classifies into that bucket, zero otherwise. -/
theorem count_filesOfCategory (c : Category) (f : String) :
    ∀ files : List String,
      (filesOfCategory files c).count f =
        if classifyFile f = c then files.count f else 0 := by
  intro files
  induction files with
  | nil => simp [filesOfCategory]
  | cons a rest ih =>
    simp only [filesOfCategory, List.filter_cons] at ih ⊢
    by_cases hc : classifyFile a = c
    · have hdc : decide (classifyFile a = c) = true := by simpa using hc
      simp only [hdc, if_true, List.count_cons, ih]
      by_cases haf : a = f
      · subst haf
        simp [hc]
      · have hbf : (a == f) = false := by simpa using haf
        simp [hbf]
    · have hdc : decide (classifyFile a = c) = false := by simpa using hc
      simp only [hdc, Bool.false_eq_true, if_false, List.count_cons, ih]
      by_cases haf : a = f
      · subst haf
        simp [hc]
      · have hbf : (a == f) = false := by simpa using haf
        simp [hbf]

/-- The work queue is a permutation of the scanned file list: the seven
classifier buckets partition it. -/
theorem buildQueue_perm (files : List String) :
    ((buildQueue files).map (fun p => p.1)).Perm files := by
  rw [List.perm_iff_count]
  intro a
  have hmap : (buildQueue files).map (fun p => p.1) =
      categoryOrder.flatMap (fun c => filesOfCategory files c) := by
    simp [buildQueue, List.map_flatMap, List.map_map, Function.comp_def]
  rw [hmap]
  simp only [categoryOrder, List.flatMap_cons, List.flatMap_nil,
    List.append_nil, List.count_append]
  rw [count_filesOfCategory, count_filesOfCategory, count_filesOfCategory,
    count_filesOfCategory, count_filesOfCategory, count_filesOfCategory,
    count_filesOfCategory]
  rcases h : classifyFile a <;> simp [h]

/-- Claim C1 (counterexample): with `totalDays=1, commitsPerDay=1,
maxFilesPerCommit=1` and two classified files, the plan holds only the first
file — the second is dropped, so the plan does not partition the classified
file set and the final slot does not absorb the remainder. -/
theorem claim1_counterexample :
    flattenFiles (phase1Plan cfgDrop ["alpha.js", "beta.js"]) = ["alpha.js"] ∧
    ("beta.js" : String) ∈ ["alpha.js", "beta.js"] ∧
    ("beta.js" : String) ∉ flattenFiles (phase1Plan cfgDrop ["alpha.js", "beta.js"]) := by
  decide

/-- Claim C1 (amended): the planner fills the `totalDays × commitsPerDay`
slots greedily with at most the effective chunk size
(`maxFilesPerCommit` when supplied, else `ceil(queue/slots)`) per slot: the
flattened plan is exactly the first `slots × chunk` entries of the work
queue — each classified file appears at most once, and whenever the queue
fits in `slots × chunk` (in particular always when `maxFilesPerCommit` is
unsupplied and there is at least one slot), the plan is a permutation of the
classified file set; any excess files beyond `slots × chunk` are dropped
rather than absorbed by the final slot. -/
theorem claim1_partition (cfg : BotConfig) (files : List String)
    (hmf : 1 ≤ effectiveMaxFiles cfg (buildQueue files).length) :
    flattenFiles (phase1Plan cfg files) =
      ((buildQueue files).take
        (cfg.totalDays * (cfg.commitsPerDay *
          effectiveMaxFiles cfg (buildQueue files).length))).map
        (fun p => p.1) ∧
    ((buildQueue files).length ≤
        cfg.totalDays * (cfg.commitsPerDay *
          effectiveMaxFiles cfg (buildQueue files).length) →
      (flattenFiles (phase1Plan cfg files)).Perm files) := by
  refine ⟨phase1_flatten_take cfg files hmf, ?_⟩
  intro hfit
  rw [phase1_flatten_take cfg files hmf, List.take_of_length_le hfit]
  exact buildQueue_perm files

/-- Witness for claim C1's amended statement: three feature files in
`2 × 2` slots with the computed chunk size — the plan is a permutation of
the input. -/
theorem claim1_partition_witness :
    1 ≤ effectiveMaxFiles cfgFit (buildQueue filesFit).length ∧
    (buildQueue filesFit).length ≤
      cfgFit.totalDays * (cfgFit.commitsPerDay *
        effectiveMaxFiles cfgFit (buildQueue filesFit).length) ∧
    (flattenFiles (phase1Plan cfgFit filesFit)).Perm filesFit :=
  ⟨by decide, by decide,
    (claim1_partition cfgFit filesFit (by decide)).2 (by decide)⟩

/-- Every element of a classifier bucket's queue block classifies into that
bucket. -/
theorem mem_block_classify (files : List String) (c : Category)
    (p : String × Category)
    (hp : p ∈ (filesOfCategory files c).map (fun g => (g, c))) :
    classifyFile p.1 = c := by
  obtain ⟨g, hg, rfl⟩ := List.mem_map.mp hp
  have := List.of_mem_filter hg
  simpa using this

/-- Concatenating bucket blocks along a rank-sorted category list yields a
queue whose files are rank-sorted. -/
theorem blocks_pairwise (files : List String) :
    ∀ cs : List Category,
      (cs.map orderIndex).Pairwise (· ≤ ·) →
      (cs.flatMap (fun c => (filesOfCategory files c).map (fun g => (g, c)))).Pairwise
        (fun p q => orderIndex (classifyFile p.1) ≤ orderIndex (classifyFile q.1)) := by
  intro cs
  induction cs with
  | nil => intro _; simp
  | cons c cs ih =>
    intro h
    rw [List.map_cons, List.pairwise_cons] at h
    rw [List.flatMap_cons, List.pairwise_append]
    refine ⟨?_, ih h.2, ?_⟩
    · apply List.pairwise_of_forall_mem_list
      intro p hp q hq
      rw [mem_block_classify files c p hp, mem_block_classify files c q hq]
    · intro p hp q hq
      rw [mem_block_classify files c p hp]
      obtain ⟨c', hc', hq'⟩ := List.mem_flatMap.mp hq
      rw [mem_block_classify files c' q hq']
      exact h.1 (orderIndex c') (List.mem_map_of_mem orderIndex hc')

/-- The work queue is rank-sorted with respect to `categoryOrder`. -/
theorem buildQueue_pairwise (files : List String) :
    (buildQueue files).Pairwise
      (fun p q => orderIndex (classifyFile p.1) ≤ orderIndex (classifyFile q.1)) :=
  blocks_pairwise files categoryOrder (by decide)

/-- Claim C5 (confirmed): flattening a produced plan in plan order (day
outer, index inner) yields a file sequence whose category ranks in the fixed
order `scaffold, build, skeleton, feature, test, docs, asset` are
monotonically non-decreasing — no file of a later category ever precedes a
file of an earlier one. -/
theorem claim5_category_order (cfg : BotConfig) (files : List String) :
    (flattenFiles (phase1Plan cfg files)).Pairwise
      (fun a b => orderIndex (classifyFile a) ≤ orderIndex (classifyFile b)) := by
  by_cases hmf : 1 ≤ effectiveMaxFiles cfg (buildQueue files).length
  · rw [phase1_flatten_take cfg files hmf]
    apply List.pairwise_map.mpr
    exact List.Pairwise.sublist (List.take_sublist _ _) (buildQueue_pairwise files)
  · rw [phase1_flatten_zero cfg files (by omega)]
    exact List.Pairwise.nil

/-- Claim C8 (confirmed): the execution loop consults the elapsed wall clock
and the commits-processed-today counter only at the top of an iteration,
before a commit is started. When the clock exceeds the time budget, or the
per-day quota is reached, the loop returns immediately with the halted flag
`false` (a clean end, not an error) and the state untouched apart from the
consumed clock read; and processing of a single commit is entirely
independent of the clock, the time budget, and the quota — a started commit
always runs to completion. -/
theorem claim8_budget_checks (env : ExecEnv) (dayLen : Nat) (c : PlannedCommit)
    (rest : List PlannedCommit) (ls : LoopState) :
    (env.timeLimit < env.elapsed ls.iter →
      execLoop env dayLen (c :: rest) ls = ({ ls with iter := ls.iter + 1 }, false)) ∧
    (env.elapsed ls.iter ≤ env.timeLimit →
      env.maxCommitsToday ≤ ls.commitsProcessed →
      execLoop env dayLen (c :: rest) ls = ({ ls with iter := ls.iter + 1 }, false)) ∧
    (∀ env2 : ExecEnv, env2.srcHash = env.srcHash → env2.dstHash = env.dstHash →
      env2.commitMode = env.commitMode → env2.skipChoice = env.skipChoice →
      processCommit env2 dayLen c ls = processCommit env dayLen c ls) := by
  refine ⟨?_, ?_, ?_⟩
  · intro h
    unfold execLoop
    rw [if_pos h]
  · intro h1 h2
    unfold execLoop
    rw [if_neg (by omega), if_pos h2]
  · intro env2 h1 h2 h3 h4
    unfold processCommit
    rw [h1, h2, h3, h4]

/-- Witness for claim C8: a concrete exhausted clock ends the invocation
cleanly before the pending commit is started. -/
theorem claim8_budget_checks_witness :
    envTimedOut.timeLimit < envTimedOut.elapsed (initLoopState freshExecState).iter ∧
    execLoop envTimedOut 1 [commitW] (initLoopState freshExecState) =
      ({ initLoopState freshExecState with iter := 1 }, false) :=
  ⟨by decide,
    (claim8_budget_checks envTimedOut 1 commitW [] (initLoopState freshExecState)).1
      (by decide)⟩

/-- Frame conditions of one commit step: a halt writes nothing; a skip
creates no commit and appends nothing; a created commit appends exactly one
completed entry carrying the commit's id, both in memory and on disk. -/
theorem processCommit_frame (env : ExecEnv) (dayLen : Nat) (c : PlannedCommit)
    (ls : LoopState) :
    (∀ ls' r, processCommit env dayLen c ls = .haltedStep ls' r →
      ls'.gitLog = ls.gitLog ∧ ls'.mem.completed = ls.mem.completed ∧
      ls'.disk = ls.disk) ∧
    (∀ ls', processCommit env dayLen c ls = .skippedStep ls' →
      ls'.gitLog = ls.gitLog ∧ ls'.mem.completed = ls.mem.completed ∧
      ls'.disk.completed = ls.mem.completed) ∧
    (∀ ls', processCommit env dayLen c ls = .committedStep ls' →
      ∃ e : CompletedCommit, e.id = c.id ∧ ls'.gitLog = ls.gitLog ++ [c.id] ∧
        ls'.mem.completed = ls.mem.completed ++ [e] ∧
        ls'.disk.completed = ls.mem.completed ++ [e]) := by
  refine ⟨?_, ?_, ?_⟩ <;> intro ls'
  · intro r h
    unfold processCommit at h
    cases hv : (verifyFiles env.srcHash env.dstHash c.files ls.mem.sourceChecksums).2 with
    | some g =>
      simp only [hv] at h
      rw [StepOut.haltedStep.injEq] at h
      rw [← h.1]
      exact ⟨rfl, rfl, rfl⟩
    | none =>
      simp only [hv] at h
      by_cases hm : (env.commitMode == "manual" && env.skipChoice c.id) = true
      · simp only [hm, if_true] at h
        exact StepOut.noConfusion h
      · simp only [hm, if_false, Bool.false_eq_true] at h
        exact StepOut.noConfusion h
  · intro h
    unfold processCommit at h
    cases hv : (verifyFiles env.srcHash env.dstHash c.files ls.mem.sourceChecksums).2 with
    | some g => simp only [hv] at h; exact StepOut.noConfusion h
    | none =>
      simp only [hv] at h
      by_cases hm : (env.commitMode == "manual" && env.skipChoice c.id) = true
      · simp only [hm, if_true] at h
        rw [StepOut.skippedStep.injEq] at h
        rw [← h]
        exact ⟨rfl, rfl, rfl⟩
      · simp only [hm, if_false, Bool.false_eq_true] at h
        exact StepOut.noConfusion h
  · intro h
    unfold processCommit at h
    cases hv : (verifyFiles env.srcHash env.dstHash c.files ls.mem.sourceChecksums).2 with
    | some g => simp only [hv] at h; exact StepOut.noConfusion h
    | none =>
      simp only [hv] at h
      by_cases hm : (env.commitMode == "manual" && env.skipChoice c.id) = true
      · simp only [hm, if_true] at h
        exact StepOut.noConfusion h
      · simp only [hm, if_false, Bool.false_eq_true] at h
        rw [StepOut.committedStep.injEq] at h
        subst h
        exact ⟨_, rfl, rfl, rfl, rfl⟩

/-- Scope invariant of the execution loop: every git commit created and every
completed entry on disk or in memory after the loop either predates the loop
or carries the id of one of the commits the loop was given. -/
theorem execLoop_scope (env : ExecEnv) (dayLen : Nat) :
    ∀ (cs : List PlannedCommit) (ls : LoopState),
      (∀ i ∈ (execLoop env dayLen cs ls).1.gitLog,
        i ∈ ls.gitLog ∨ ∃ c ∈ cs, i = c.id) ∧
      (∀ e ∈ (execLoop env dayLen cs ls).1.disk.completed,
        e ∈ ls.disk.completed ∨ e ∈ ls.mem.completed ∨ ∃ c ∈ cs, e.id = c.id) ∧
      (∀ e ∈ (execLoop env dayLen cs ls).1.mem.completed,
        e ∈ ls.mem.completed ∨ ∃ c ∈ cs, e.id = c.id) := by
  intro cs
  induction cs with
  | nil =>
    intro ls
    exact ⟨fun i hi => Or.inl hi, fun e he => Or.inl he, fun e he => Or.inl he⟩
  | cons c rest ih =>
    intro ls
    unfold execLoop
    by_cases ht : env.timeLimit < env.elapsed ls.iter
    · rw [if_pos ht]
      exact ⟨fun i hi => Or.inl hi, fun e he => Or.inl he, fun e he => Or.inl he⟩
    · rw [if_neg ht]
      by_cases hq : env.maxCommitsToday ≤ ({ ls with iter := ls.iter + 1 } : LoopState).commitsProcessed
      · rw [if_pos hq]
        exact ⟨fun i hi => Or.inl hi, fun e he => Or.inl he, fun e he => Or.inl he⟩
      · rw [if_neg hq]
        by_cases hid : (c.id == expectedId { ls with iter := ls.iter + 1 }) = true
        · rw [if_pos hid]
          set ls1 : LoopState := { ls with iter := ls.iter + 1 } with hls1
          cases hp : processCommit env dayLen c ls1 with
          | haltedStep ls' r =>
            obtain ⟨hg, hmem, hdisk⟩ := (processCommit_frame env dayLen c ls1).1 ls' r hp
            refine ⟨?_, ?_, ?_⟩
            · intro i hi
              rw [hg] at hi
              exact Or.inl hi
            · intro e he
              rw [hdisk] at he
              exact Or.inl he
            · intro e he
              rw [hmem] at he
              exact Or.inl he
          | committedStep ls' =>
            obtain ⟨e0, he0, hg, hmem, hdisk⟩ :=
              (processCommit_frame env dayLen c ls1).2.2 ls' hp
            obtain ⟨ihg, ihd, ihm⟩ := ih ls'
            refine ⟨?_, ?_, ?_⟩
            · intro i hi
              rcases ihg i hi with hi' | hi'
              · rw [hg] at hi'
                rcases List.mem_append.mp hi' with hi'' | hi''
                · exact Or.inl hi''
                · exact Or.inr ⟨c, List.mem_cons_self c rest, List.mem_singleton.mp hi''⟩
              · obtain ⟨c', hc', hi''⟩ := hi'
                exact Or.inr ⟨c', List.mem_cons_of_mem c hc', hi''⟩
            · intro e he
              rcases ihd e he with he' | he' | he'
              · rw [hdisk] at he'
                rcases List.mem_append.mp he' with he'' | he''
                · exact Or.inr (Or.inl he'')
                · rw [List.mem_singleton.mp he'']
                  exact Or.inr (Or.inr ⟨c, List.mem_cons_self c rest, he0⟩)
              · rw [hmem] at he'
                rcases List.mem_append.mp he' with he'' | he''
                · exact Or.inr (Or.inl he'')
                · rw [List.mem_singleton.mp he'']
                  exact Or.inr (Or.inr ⟨c, List.mem_cons_self c rest, he0⟩)
              · obtain ⟨c', hc', he''⟩ := he'
                exact Or.inr (Or.inr ⟨c', List.mem_cons_of_mem c hc', he''⟩)
            · intro e he
              rcases ihm e he with he' | he'
              · rw [hmem] at he'
                rcases List.mem_append.mp he' with he'' | he''
                · exact Or.inl he''
                · rw [List.mem_singleton.mp he'']
                  exact Or.inr ⟨c, List.mem_cons_self c rest, he0⟩
              · obtain ⟨c', hc', he''⟩ := he'
                exact Or.inr ⟨c', List.mem_cons_of_mem c hc', he''⟩
          | skippedStep ls' =>
            obtain ⟨hg, hmem, hdisk⟩ := (processCommit_frame env dayLen c ls1).2.1 ls' hp
            obtain ⟨ihg, ihd, ihm⟩ := ih ls'
            refine ⟨?_, ?_, ?_⟩
            · intro i hi
              rcases ihg i hi with hi' | hi'
              · rw [hg] at hi'
                exact Or.inl hi'
              · obtain ⟨c', hc', hi''⟩ := hi'
                exact Or.inr ⟨c', List.mem_cons_of_mem c hc', hi''⟩
            · intro e he
              rcases ihd e he with he' | he' | he'
              · rw [hdisk] at he'
                exact Or.inr (Or.inl he')
              · rw [hmem] at he'
                exact Or.inr (Or.inl he')
              · obtain ⟨c', hc', he''⟩ := he'
                exact Or.inr (Or.inr ⟨c', List.mem_cons_of_mem c hc', he''⟩)
            · intro e he
              rcases ihm e he with he' | he'
              · rw [hmem] at he'
                exact Or.inl he'
              · obtain ⟨c', hc', he''⟩ := he'
                exact Or.inr ⟨c', List.mem_cons_of_mem c hc', he''⟩
        · rw [if_neg hid]
          obtain ⟨ihg, ihd, ihm⟩ := ih { ls with iter := ls.iter + 1 }
          refine ⟨?_, ?_, ?_⟩
          · intro i hi
            rcases ihg i hi with hi' | hi'
            · exact Or.inl hi'
            · obtain ⟨c', hc', hi''⟩ := hi'
              exact Or.inr ⟨c', List.mem_cons_of_mem c hc', hi''⟩
          · intro e he
            rcases ihd e he with he' | he' | he'
            · exact Or.inl he'
            · exact Or.inr (Or.inl he')
            · obtain ⟨c', hc', he''⟩ := he'
              exact Or.inr (Or.inr ⟨c', List.mem_cons_of_mem c hc', he''⟩)
          · intro e he
            rcases ihm e he with he' | he'
            · exact Or.inl he'
            · obtain ⟨c', hc', he''⟩ := he'
              exact Or.inr ⟨c', List.mem_cons_of_mem c hc', he''⟩

/-- Claim C9 (confirmed): one invocation of the execution phase only
processes commits of the single day record the persisted cursor's `day`
field selects — whatever the time and quota oracles permit, every git commit
it creates carries the id of one of that day's planned commits, and every
completed entry it persists either predates the invocation or carries such
an id; commits of later days are never started, so an N-day plan needs at
least N invocations. -/
theorem claim9_single_day (env : ExecEnv) (plan : Plan) (st : ExecState)
    (d : PlanDay)
    (hd : plan.days.find? (fun dd => dd.day == st.next.day) = some d) :
    (∀ i ∈ (phase3Run env plan st).1.gitLog, ∃ c ∈ d.commits, i = c.id) ∧
    (∀ e ∈ (phase3Run env plan st).1.disk.completed,
      e ∈ st.completed ∨ ∃ c ∈ d.commits, e.id = c.id) := by
  unfold phase3Run
  rw [hd]
  obtain ⟨hg, hdk, _⟩ :=
    execLoop_scope env d.commits.length d.commits (initLoopState st)
  constructor
  · intro i hi
    rcases hg i hi with hi' | hi'
    · exact absurd hi' (List.not_mem_nil i)
    · exact hi'
  · intro e he
    rcases hdk e he with he' | he' | he'
    · exact Or.inl he'
    · exact Or.inl he'
    · exact Or.inr he'

/-- Witness for claim C9 at a concrete one-day plan. -/
theorem claim9_single_day_witness :
    planOneDay.days.find? (fun dd => dd.day == freshExecState.next.day) =
      some dayOne ∧
    (∀ i ∈ (phase3Run envAuto planOneDay freshExecState).1.gitLog,
      ∃ c ∈ dayOne.commits, i = c.id) ∧
    (∀ e ∈ (phase3Run envAuto planOneDay freshExecState).1.disk.completed,
      e ∈ freshExecState.completed ∨ ∃ c ∈ dayOne.commits, e.id = c.id) :=
  ⟨by decide,
    claim9_single_day envAuto planOneDay freshExecState dayOne (by decide)⟩

/-- Every file emitted by the scan survives `shouldIgnoreFile` — the scan
never emits an ignored path. -/
theorem scanEntries_not_ignored (patterns : List String) :
    ∀ (pref : String) (es : List FsEntry) (f : String),
      f ∈ scanEntries patterns pref es → shouldIgnoreFile patterns f = false := by
  intro pref es
  induction pref, es using scanEntries.induct patterns with
  | case1 pref =>
    intro f hf
    rw [scanEntries] at hf
    exact absurd hf (List.not_mem_nil f)
  | case2 pref n rest ih =>
    intro f hf
    rw [scanEntries] at hf
    rcases List.mem_append.mp hf with hf' | hf'
    · by_cases hig : shouldIgnoreFile patterns (joinRel pref n) = true
      · rw [if_pos hig] at hf'
        exact absurd hf' (List.not_mem_nil f)
      · rw [if_neg hig] at hf'
        rw [List.mem_singleton.mp hf']
        simpa using hig
    · exact ih f hf'
  | case3 pref n children rest r ihc ihr =>
    intro f hf
    rw [scanEntries] at hf
    rcases List.mem_append.mp hf with hf' | hf'
    · by_cases hig : shouldIgnoreFile patterns (joinRel pref n) = true
      · rw [if_pos hig] at hf'
        exact absurd hf' (List.not_mem_nil f)
      · rw [if_neg hig] at hf'
        exact ihc f hf'
    · exact ihr f hf'

/-- Every file of the work queue comes from the scanned file list. -/
theorem mem_queue_mem_files (files : List String) (p : String × Category)
    (hp : p ∈ buildQueue files) : p.1 ∈ files := by
  obtain ⟨c, _, hp'⟩ := List.mem_flatMap.mp hp
  obtain ⟨g, hg, rfl⟩ := List.mem_map.mp hp'
  exact List.mem_of_mem_filter hg

/-- Every file of a produced plan comes from the scanned file list. -/
theorem flatten_subset_files (cfg : BotConfig) (files : List String)
    (f : String) (hf : f ∈ flattenFiles (phase1Plan cfg files)) : f ∈ files := by
  by_cases hmf : 1 ≤ effectiveMaxFiles cfg (buildQueue files).length
  · rw [phase1_flatten_take cfg files hmf] at hf
    obtain ⟨p, hp, rfl⟩ := List.mem_map.mp hf
    exact mem_queue_mem_files files p (List.take_subset _ _ hp)
  · rw [phase1_flatten_zero cfg files (by omega)] at hf
    exact absurd hf (List.not_mem_nil f)

/-- Claim C10 (confirmed): for every source tree, configuration, and user
ignore-pattern list (including the empty one), no file of any commit of the
produced plan matches the hard-coded security table — such paths are
excluded unconditionally at scan time: the path contains none of `".env"`,
`"node_modules"`, `"dist"`, `".cache"` (nor, by the final conjunct, any other
substring pattern of the table) and ends in none of the guarded extensions
`".pem"`, `".key"`, `".p12"`, `".token"` (nor any other of the table). -/
theorem claim10_security_exclusions (cfg : BotConfig) (patterns : List String)
    (root : List FsEntry) (f : String)
    (hf : f ∈ flattenFiles (phase1Plan cfg (scanDirectory patterns root))) :
    strContains f ".env" = false ∧ strContains f "node_modules" = false ∧
    strContains f "dist" = false ∧ strContains f ".cache" = false ∧
    strEndsWith f ".pem" = false ∧ strEndsWith f ".key" = false ∧
    strEndsWith f ".p12" = false ∧ strEndsWith f ".token" = false ∧
    matchesSecurity f = false := by
  have hscan : f ∈ scanDirectory patterns root :=
    flatten_subset_files cfg (scanDirectory patterns root) f hf
  have hig : shouldIgnoreFile patterns f = false :=
    scanEntries_not_ignored patterns "" root f hscan
  have hsec : matchesSecurity f = false := by
    unfold shouldIgnoreFile at hig
    exact (Bool.or_eq_false_iff.mp hig).2
  have hall : ∀ pat ∈ securityPatterns,
      (if strStartsWith pat "*." then strEndsWith f (String.mk pat.data.tail)
        else strContains f pat) = false := by
    intro pat hp
    have h := List.any_eq_false.mp hsec pat hp
    simpa using h
  refine ⟨?_, ?_, ?_, ?_, ?_, ?_, ?_, ?_, hsec⟩
  · have h := hall ".env" (by decide)
    rw [show strStartsWith ".env" "*." = false by decide] at h
    simpa using h
  · have h := hall "node_modules" (by decide)
    rw [show strStartsWith "node_modules" "*." = false by decide] at h
    simpa using h
  · have h := hall "dist" (by decide)
    rw [show strStartsWith "dist" "*." = false by decide] at h
    simpa using h
  · have h := hall ".cache" (by decide)
    rw [show strStartsWith ".cache" "*." = false by decide] at h
    simpa using h
  · have h := hall "*.pem" (by decide)
    rw [show strStartsWith "*.pem" "*." = true by decide] at h
    rw [show (String.mk ("*.pem" : String).data.tail) = ".pem" by decide] at h
    simpa using h
  · have h := hall "*.key" (by decide)
    rw [show strStartsWith "*.key" "*." = true by decide] at h
    rw [show (String.mk ("*.key" : String).data.tail) = ".key" by decide] at h
    simpa using h
  · have h := hall "*.p12" (by decide)
    rw [show strStartsWith "*.p12" "*." = true by decide] at h
    rw [show (String.mk ("*.p12" : String).data.tail) = ".p12" by decide] at h
    simpa using h
  · have h := hall "*.token" (by decide)
    rw [show strStartsWith "*.token" "*." = true by decide] at h
    rw [show (String.mk ("*.token" : String).data.tail) = ".token" by decide] at h
    simpa using h

/-- Witness for claim C10 at a concrete tree containing a secret file, a key
file and a `node_modules` directory next to one plain source file. -/
theorem claim10_security_exclusions_witness :
    ("alpha.js" : String) ∈
      flattenFiles (phase1Plan cfgFit (scanDirectory [] treeW)) ∧
    (strContains "alpha.js" ".env" = false ∧
      strContains "alpha.js" "node_modules" = false ∧
      strContains "alpha.js" "dist" = false ∧
      strContains "alpha.js" ".cache" = false ∧
      strEndsWith "alpha.js" ".pem" = false ∧
      strEndsWith "alpha.js" ".key" = false ∧
      strEndsWith "alpha.js" ".p12" = false ∧
      strEndsWith "alpha.js" ".token" = false ∧
      matchesSecurity "alpha.js" = false) := by
  have hscan : scanDirectory [] treeW = ["alpha.js"] := by
    simp only [scanDirectory, treeW, scanEntries,
      show joinRel "" "alpha.js" = "alpha.js" by decide,
      show joinRel "" ".env" = ".env" by decide,
      show joinRel "" "server.key" = "server.key" by decide,
      show joinRel "" "node_modules" = "node_modules" by decide,
      show shouldIgnoreFile [] "alpha.js" = false by decide,
      show shouldIgnoreFile [] ".env" = true by decide,
      show shouldIgnoreFile [] "server.key" = true by decide,
      show shouldIgnoreFile [] "node_modules" = true by decide]
    simp
  have hmem : ("alpha.js" : String) ∈
      flattenFiles (phase1Plan cfgFit (scanDirectory [] treeW)) := by
    rw [hscan]
    decide
  exact ⟨hmem, claim10_security_exclusions cfgFit [] treeW "alpha.js" hmem⟩
